import Mathlib

/-!
Verification of the mpris-bridge daemon (`src/main.rs`) and its companion CLI
(`src/bin/mpris-bridgec.rs`) against the natural-language specification.

Rust strings are modelled as lists of characters (`Str`), so Rust
`s.chars().count()` is `List.length` and `s.starts_with(x)` is
`List.isPrefixOf x s`.  Rust `f64` values are modelled as rationals: every
operation the source applies to them (comparison with zero, `max`, `floor`,
truncating casts, division by `10^6`) is exact on the ranges of interest, so
the rational model is faithful for the properties considered here.
-/

/-- Rust strings, modelled as their character sequences. -/
abbrev Str := List Char

/-- Convenience conversion from Lean string literals to `Str`. -/
def str (s : String) : Str := s.toList

/-- Decimal digits of a natural number, as printed by Rust `format!`. -/
def nat_to_str (n : Nat) : Str := Nat.toDigits 10 n

/-- Decimal rendering of a signed integer, as printed by Rust `format!`. -/
def int_to_str (i : Int) : Str :=
  if i < 0 then '-' :: nat_to_str (-i).toNat else nat_to_str i.toNat

/-- Truncation of a rational toward zero, the behaviour of Rust `as i64`
on an in-range finite float. -/
def trunc_q (q : ℚ) : Int := if 0 ≤ q then ⌊q⌋ else -⌊-q⌋

/-- `truncate` from `src/main.rs`: keep `s` when it has at most `max`
characters, otherwise keep the first `max - 1` characters (saturating
subtraction) and append `…`. -/
def truncate (s : Str) (max : Nat) : Str :=
  if s.length ≤ max then s
  else s.take (max - 1) ++ ['…']

/-- Two-digit zero-padded rendering used for the seconds field of
`format!("{m}:{r:02}")`. -/
def pad2 (n : Nat) : Str := if n < 10 then '0' :: nat_to_str n else nat_to_str n

/-- `fmt_time` from `src/main.rs`: clamp to zero, floor to whole seconds,
and render as minutes, a colon and two-digit seconds. -/
def fmt_time (s : ℚ) : Str :=
  let secs : Int := ⌊max s 0⌋
  let m := secs / 60
  let r := secs % 60
  nat_to_str m.toNat ++ [':'] ++ pad2 r.toNat

/-- Rounding to the nearest integer, half away from zero: the behaviour of
Rust `f64::round`, used only by the companion CLI's direct fallback and by
the specification's reading of the seek command. -/
def rat_round (q : ℚ) : Int := if 0 ≤ q then ⌊q + 1/2⌋ else -⌊-q + 1/2⌋

-- ------------------------- Selection -------------------------

/-- The `[selection]` configuration table.  The Rust fields `include` and
`exclude` are named `incl` and `excl` here because `include` is a Lean
keyword. -/
structure Selection where
  priority : List Str
  remember_last : Bool
  fallback : Str
  incl : List Str
  excl : List Str

/-- `include_exclude_match` from `src/main.rs`: a player id passes when the
include list is empty or some element is a prefix of it, and no element of a
non-empty exclude list is a prefix of it. -/
def include_exclude_match (name : Str) (incl excl : List Str) : Bool :=
  if !incl.isEmpty && !(incl.any fun x => x.isPrefixOf name) then false
  else if !excl.isEmpty && (excl.any fun x => x.isPrefixOf name) then false
  else true

/-- The focus-hint match performed twice inside `recompute_selected`: the
first candidate of which the hint is a prefix, if a hint is set. -/
def focus_find (focus : Option Str) (ps : List Str) : Option Str :=
  match focus with
  | some f => ps.find? fun pp => f.isPrefixOf pp
  | none => none

/-- The priority loop inside `recompute_selected`: for each configured
family in order, the first candidate it prefixes. -/
def priority_find (prio : List Str) (ps : List Str) : Option Str :=
  match prio with
  | [] => none
  | w :: rest =>
    match ps.find? (fun pp => w.isPrefixOf pp) with
    | some p => some p
    | none => priority_find rest ps

/-- The status predicate `status_map.get(p).map_or(false, |s| s == "Playing")`
used to build the playing subset. -/
def is_playing (status : Str → Option Str) (p : Str) : Bool :=
  (status p).elim false fun s => s == str "Playing"

/-- `recompute_selected` from `src/main.rs`, with the registry reads made
explicit arguments: `playersSet` is the iteration order of the player set,
`status` the status map, and the early `return`s of the Rust function
rendered as match chains. -/
def recompute_selected (cfg : Selection) (playersSet : List Str)
    (status : Str → Option Str) (focus_hint last_selected : Option Str) :
    Option Str :=
  let players := playersSet.filter fun p => include_exclude_match p cfg.incl cfg.excl
  if players.isEmpty then none
  else
    let playing := players.filter (is_playing status)
    if !playing.isEmpty then
      match focus_find focus_hint playing with
      | some p => some p
      | none =>
        match priority_find cfg.priority playing with
        | some p => some p
        | none => playing.head?
    else
      match (if cfg.remember_last then
               match last_selected with
               | some l => if players.any (fun p => p == l) then some l else none
               | none => none
             else none) with
      | some l => some l
      | none =>
        match focus_find focus_hint players with
        | some p => some p
        | none =>
          match priority_find cfg.priority players with
          | some p => some p
          | none => if cfg.fallback == str "any" then players.head? else none

/-- The specification's seven-step election algorithm (§4.1), written from
the spec's words for comparison with `recompute_selected`: filter to `P`,
none when `P` is empty, prefer the playing subset `PL` with focus hint then
priority then any element, otherwise the remembered selection, the focus
hint, the priority order, and finally any element of `P` only under
`fallback == "any"`. -/
def election_spec_alg (cfg : Selection) (playersSet : List Str)
    (status : Str → Option Str) (focus_hint last_selected : Option Str) :
    Option Str :=
  let P := playersSet.filter fun p => include_exclude_match p cfg.incl cfg.excl
  if P = [] then none
  else
    let PL := P.filter (is_playing status)
    if PL ≠ [] then
      (focus_find focus_hint PL).orElse fun _ =>
        (priority_find cfg.priority PL).orElse fun _ => PL.head?
    else
      (match last_selected with
        | some l => if cfg.remember_last ∧ l ∈ P then some l else none
        | none => none).orElse fun _ =>
        (focus_find focus_hint P).orElse fun _ =>
          (priority_find cfg.priority P).orElse fun _ =>
            if cfg.fallback = str "any" then P.head? else none

-- ------------------------- Registry state machine -------------------------

/-- The mutable registry of `Ctx`: known players, their statuses, the
current selection, the remembered selection and the focus hint. -/
structure Registry where
  players : List Str
  status : Str → Option Str
  selected : Option Str
  last_selected : Option Str
  focus_hint : Option Str

/-- The initial registry: empty sets, no selection, no hint. -/
def Registry.init : Registry :=
  { players := [], status := fun _ => none, selected := none,
    last_selected := none, focus_hint := none }

/-- `set_selected_sync` from `src/main.rs`: store the new selection and,
when it is non-empty, overwrite `last_selected`. -/
def set_selected_sync (r : Registry) (name : Option Str) : Registry :=
  let r1 := { r with selected := name }
  match name with
  | some n => { r1 with last_selected := some n }
  | none => r1

/-- The registry mutations performed by the daemon's tasks: seeding the
player set, replacing or inserting statuses, updating the focus hint, and
the recompute-and-store step that every mutation path ends with. -/
inductive RegStep where
  | setPlayers (ps : List Str)
  | setStatusMap (f : Str → Option Str)
  | insertStatus (p s : Str)
  | setFocus (h : Option Str)
  | recompute

/-- One registry mutation.  `recompute` models every call site of
`set_selected_and_kick`: the stored value is always the output of
`recompute_selected` on the current registry. -/
def reg_step (cfg : Selection) (r : Registry) : RegStep → Registry
  | .setPlayers ps => { r with players := ps }
  | .setStatusMap f => { r with status := f }
  | .insertStatus p s =>
    { r with status := fun q => if q = p then some s else r.status q }
  | .setFocus h => { r with focus_hint := h }
  | .recompute =>
    set_selected_sync r
      (recompute_selected cfg r.players r.status r.focus_hint r.last_selected)

/-- Run a sequence of registry mutations from the initial registry. -/
def run_steps (cfg : Selection) (steps : List RegStep) : Registry :=
  steps.foldl (reg_step cfg) Registry.init

-- ------------------------- UiState and publisher -------------------------

/-- The canonical published record (camelCase JSON fields in the source). -/
structure UiState where
  name : Str
  title : Str
  artist : Str
  status : Str
  position : ℚ
  position_str : Str
  length : ℚ
  length_str : Str
  thumbnail : Str
  can_next : Int
  can_prev : Int

/-- `UiState::empty` from `src/main.rs`. -/
def UiState.empty (default_cover : Str) : UiState :=
  { name := [], title := [], artist := [], status := [],
    position := 0, position_str := fmt_time 0,
    length := 0, length_str := fmt_time 0,
    thumbnail := default_cover, can_next := 0, can_prev := 0 }

/-- The "empty-with-name" snapshot published by `spawn_follower` right
before the follower child starts. -/
def named_empty (default_cover name : Str) : UiState :=
  { UiState.empty default_cover with name := name }

/-- The `UiState` built from one follower metadata line (also the shape
built by `emit_quick_snapshot`).  The `parse::<u64>` of the length field
and `parse::<f64>` of the position field are abstracted by their results
`lenParse` and `posParse`; on parse failure the empty state's zero fields
survive, exactly as in the source. -/
def build_stream_state (default_cover : Str) (tTitle tArtist : Nat)
    (name status title artist : Str) (lenParse : Option Nat)
    (posParse : Option ℚ) (thumb : Str) (caps : Int × Int) : UiState :=
  let st0 := { UiState.empty default_cover with
    name := name, status := status,
    title := truncate title tTitle, artist := truncate artist tArtist }
  let st1 := match lenParse with
    | some us =>
      { st0 with length := (us : ℚ) / 1000000,
                 length_str := fmt_time ((us : ℚ) / 1000000) }
    | none => st0
  let st2 := match posParse with
    | some usf =>
      { st1 with position := usf / 1000000,
                 position_str := fmt_time (usf / 1000000) }
    | none => st1
  { st2 with thumbnail := thumb, can_next := caps.1, can_prev := caps.2 }

/-- The on-disk state touched by `write_state`: the temp file, the
snapshot, and the event log lines. -/
structure PubFs where
  tmp : Option Str
  snapshot : Option Str
  events : List Str

/-- Failure injection for the three fallible filesystem operations of
`write_state` (temp-file write, rename, event-log append). -/
structure FsEnv where
  writeFails : Bool
  renameFails : Bool
  appendFails : Bool

/-- `write_state` from `src/main.rs` with serialisation abstracted: `json`
is the (compact or pretty) snapshot serialisation and `line` the compact
event-line serialisation.  Each `?` of the source is an early return with
`false`; the returned boolean is `Ok`. -/
def write_state (json line : Str) (env : FsEnv) (fs : PubFs) : PubFs × Bool :=
  if env.writeFails then (fs, false)
  else
    let fs1 : PubFs := { fs with tmp := some json }
    if env.renameFails then (fs1, false)
    else
      let fs2 : PubFs := { fs1 with tmp := none, snapshot := some json }
      if env.appendFails then (fs2, false)
      else ({ fs2 with events := fs2.events ++ [line] }, true)

-- ------------------------- IPC -------------------------

/-- The wire commands of the IPC socket (`IpcCmd` in `src/main.rs`). -/
inductive IpcCmd where
  | playPause (player : Option Str)
  | next (player : Option Str)
  | previous (player : Option Str)
  | seek (offset : ℚ) (player : Option Str)
  | setPosition (position : ℚ) (player : Option Str)

/-- `pick_player_sync` from `src/main.rs`: the explicit request player when
present, else the current selection. -/
def pick_player (explicit : Option Str) (selected : Option Str) : Option Str :=
  match explicit with
  | some p => some p
  | none => selected

/-- The argument string built by the daemon's `IpcCmd::Seek` handler:
`format!("{}+", offset as i64)` for non-negative offsets and
`format!("{}-", (-offset) as i64)` otherwise (`as i64` truncates toward
zero). -/
def seek_arg (offset : ℚ) : Str :=
  if 0 ≤ offset then int_to_str (trunc_q offset) ++ ['+']
  else int_to_str (trunc_q (-offset)) ++ ['-']

/-- The seek argument as the claim reads it: the **rounded** absolute value
of the offset followed by the sign suffix.  Written from the claim's words
for comparison with `seek_arg`. -/
def seek_arg_claimed (offset : ℚ) : Str :=
  nat_to_str (rat_round |offset|).toNat ++ [if 0 ≤ offset then '+' else '-']

/-- The argument string built by the daemon's `IpcCmd::SetPosition`
handler: `format!("{}", position as i64)`. -/
def set_pos_arg (position : ℚ) : Str := int_to_str (trunc_q position)

/-- One invocation of the external control utility: the target player and
the arguments passed after `playerctl -p <player>`. -/
structure Invocation where
  player : Str
  args : List Str
deriving DecidableEq

/-- The `match cmd` of `handle_ipc_stream_blocking`: resolve the target
player, invoke the utility with the verb's arguments, and report `ok`. -/
def handle_cmd (sel : Option Str) : IpcCmd → List Invocation × Bool
  | .playPause player =>
    match pick_player player sel with
    | some p => ([⟨p, [str "play-pause"]⟩], true)
    | none => ([], false)
  | .next player =>
    match pick_player player sel with
    | some p => ([⟨p, [str "next"]⟩], true)
    | none => ([], false)
  | .previous player =>
    match pick_player player sel with
    | some p => ([⟨p, [str "previous"]⟩], true)
    | none => ([], false)
  | .seek offset player =>
    match pick_player player sel with
    | some p => ([⟨p, [str "position", seek_arg offset]⟩], true)
    | none => ([], false)
  | .setPosition position player =>
    match pick_player player sel with
    | some p => ([⟨p, [str "position", set_pos_arg position]⟩], true)
    | none => ([], false)

/-- The optional explicit `player` field of a command. -/
def cmd_player : IpcCmd → Option Str
  | .playPause player => player
  | .next player => player
  | .previous player => player
  | .seek _ player => player
  | .setPosition _ player => player

/-- The argument list each verb passes to the control utility. -/
def cmd_args : IpcCmd → List Str
  | .playPause _ => [str "play-pause"]
  | .next _ => [str "next"]
  | .previous _ => [str "previous"]
  | .seek offset _ => [str "position", seek_arg offset]
  | .setPosition position _ => [str "position", set_pos_arg position]

/-- The single response line written per processed command:
`{"ok":true}` or `{"ok":false}` followed by a newline. -/
def response (ok : Bool) : Str :=
  if ok then str "\x7b\"ok\":true\x7d\n" else str "\x7b\"ok\":false\x7d\n"

/-- Unicode `White_Space`, the predicate behind Rust `str::trim`. -/
def rust_is_ws (c : Char) : Bool :=
  decide ((9 ≤ c.toNat ∧ c.toNat ≤ 13) ∨ c.toNat = 32 ∨ c.toNat = 133 ∨
    c.toNat = 160 ∨ c.toNat = 5760 ∨ (8192 ≤ c.toNat ∧ c.toNat ≤ 8202) ∨
    c.toNat = 8232 ∨ c.toNat = 8233 ∨ c.toNat = 8239 ∨ c.toNat = 8287 ∨
    c.toNat = 12288)

/-- Rust `str::trim`: drop leading and trailing whitespace. -/
def trim (s : Str) : Str :=
  ((s.dropWhile rust_is_ws).reverse.dropWhile rust_is_ws).reverse

/-- One iteration of the per-connection loop of
`handle_ipc_stream_blocking`: trim the line, skip it silently when the
trimmed text is empty, otherwise parse it (`parse` abstracts
`serde_json::from_str::<IpcCmd>`), execute, and write exactly one response
line.  Returns the utility invocations and the response lines written. -/
def handle_line (parse : Str → Option IpcCmd) (sel : Option Str) (l : Str) :
    List Invocation × List Str :=
  let txt := trim l
  if txt.isEmpty then ([], [])
  else
    match parse txt with
    | some c =>
      let r := handle_cmd sel c
      (r.1, [response r.2])
    | none => ([], [response false])

/-- The whole per-connection loop over the lines received before EOF:
concatenated utility invocations and response lines. -/
def handle_stream (parse : Str → Option IpcCmd) (sel : Option Str) :
    List Str → List Invocation × List Str
  | [] => ([], [])
  | l :: rest =>
    let r1 := handle_line parse sel l
    let r2 := handle_stream parse sel rest
    (r1.1 ++ r2.1, r1.2 ++ r2.2)

-- ------------------------- Pango escaping -------------------------

/-- The apostrophe character, written via its code point. -/
def apos_char : Char := Char.ofNat 39

/-- The double-quote character, written via its code point. -/
def quote_char : Char := Char.ofNat 34

/-- One Rust `str::replace` with a single-character pattern: every
occurrence of `c` is replaced by `r`. -/
def replace_char (c : Char) (r : Str) : Str → Str
  | [] => []
  | x :: xs => (if x = c then r else [x]) ++ replace_char c r xs

/-- `pango_escape` from `src/bin/mpris-bridgec.rs`: five sequential
whole-string replacements, the ampersand one first. -/
def pango_escape (s : Str) : Str :=
  replace_char quote_char (str "&quot;")
    (replace_char apos_char ['&', 'a', 'p', 'o', 's', ';']
      (replace_char '>' (str "&gt;")
        (replace_char '<' (str "&lt;")
          (replace_char '&' (str "&amp;") s))))

/-- The character-for-character escape mapping stated by the claim. -/
def esc (c : Char) : Str :=
  if c = '&' then str "&amp;"
  else if c = '<' then str "&lt;"
  else if c = '>' then str "&gt;"
  else if c = apos_char then ['&', 'a', 'p', 'o', 's', ';']
  else if c = quote_char then str "&quot;"
  else [c]

/-- Concatenated character-wise escape of a whole string. -/
def esc_all (s : Str) : Str := (s.map esc).flatten

-- ------------------------- Helper lemmas -------------------------

lemma replace_char_append (c : Char) (r : Str) (a b : Str) :
    replace_char c r (a ++ b) = replace_char c r a ++ replace_char c r b := by
  induction a with
  | nil => rfl
  | cons x xs ih => simp [replace_char, ih]

lemma pango_escape_append (a b : Str) :
    pango_escape (a ++ b) = pango_escape a ++ pango_escape b := by
  simp [pango_escape, replace_char_append]

lemma pango_escape_single (x : Char) : pango_escape [x] = esc x := by
  by_cases h1 : x = '&'
  · subst h1; decide
  by_cases h2 : x = '<'
  · subst h2; decide
  by_cases h3 : x = '>'
  · subst h3; decide
  by_cases h4 : x = apos_char
  · subst h4; decide
  by_cases h5 : x = quote_char
  · subst h5; decide
  simp [pango_escape, replace_char, esc, h1, h2, h3, h4, h5]

lemma floor_max_self (x : ℚ) : ⌊max x 0⌋ = ⌊max ((⌊x⌋ : ℤ) : ℚ) 0⌋ := by
  rcases le_or_lt 0 x with h | h
  · rw [max_eq_left h,
      max_eq_left (by exact_mod_cast Int.floor_nonneg.mpr h), Int.floor_intCast]
  · rw [max_eq_right h.le,
      max_eq_right (by exact_mod_cast Int.floor_nonpos h.le)]

-- ------------------------- Claim theorems -------------------------

/-- C3 counterexample: with configured maximum 0 and the two-character
string "ab", `truncate` returns the single character `…`, whose character
count is 1 and exceeds the maximum — the claimed bound fails at n = 0. -/
theorem truncate_max_zero_exceeds :
    truncate (str "ab") 0 = str "…" ∧ ¬((truncate (str "ab") 0).length ≤ 0) := by
  decide

/-- C3 (amended): if the character count of `s` is at most `n` then
`truncate s n = s`; when it exceeds `n` the result ends in `…`; when it
exceeds `n ≥ 1` the result has exactly `n` characters; when it exceeds
`n = 0` the result is the single character `…`; and in all cases the
character count of the result is at most `max n 1` (so the claimed bound
`n` holds for every `n ≥ 1` but not for `n = 0`). -/
theorem truncate_spec_amended (s : Str) (n : Nat) :
    (s.length ≤ n → truncate s n = s) ∧
    (n < s.length → (truncate s n).getLast? = some '…') ∧
    (n < s.length → 1 ≤ n → (truncate s n).length = n) ∧
    (0 < s.length → truncate s 0 = ['…']) ∧
    (truncate s n).length ≤ max n 1 := by
  refine ⟨fun h => by simp [truncate, h], fun h => ?_, fun h h1 => ?_, fun h => ?_, ?_⟩
  · rw [truncate, if_neg (by omega)]
    exact List.getLast?_concat _
  · rw [truncate, if_neg (by omega)]
    simp [List.length_take]
    omega
  · rw [truncate, if_neg (by omega)]
    simp
  · by_cases h : s.length ≤ n
    · simp only [truncate, if_pos h]
      omega
    · rw [truncate, if_neg h]
      simp [List.length_take]
      omega

/-- C3 witness: the amended theorem applied at the six-character string
"abcdef" with maximum 3. -/
theorem truncate_spec_amended_witness :
    3 < (str "abcdef").length ∧ 1 ≤ 3 ∧ (truncate (str "abcdef") 3).length = 3 :=
  ⟨by decide, by decide,
    (truncate_spec_amended (str "abcdef") 3).2.2.1 (by decide) (by decide)⟩

/-- C5: every `UiState` the daemon builds for publication (the
empty-with-name snapshot and the states built from follower or quick
snapshot metadata) satisfies `positionStr = fmt(position)` and
`lengthStr = fmt(length)`; moreover `fmt_time x = fmt_time ⌊x⌋`,
`fmt_time (-1) = "0:00"` and `fmt_time 65.9 = "1:05"`. -/
theorem ui_state_time_invariants :
    (∀ cover name : Str,
      (named_empty cover name).position_str
          = fmt_time (named_empty cover name).position ∧
      (named_empty cover name).length_str
          = fmt_time (named_empty cover name).length) ∧
    (∀ (cover : Str) (tT tA : Nat) (name status title artist : Str)
        (lp : Option Nat) (pp : Option ℚ) (thumb : Str) (caps : Int × Int),
      (build_stream_state cover tT tA name status title artist lp pp thumb caps).position_str
          = fmt_time (build_stream_state cover tT tA name status title artist lp pp thumb caps).position ∧
      (build_stream_state cover tT tA name status title artist lp pp thumb caps).length_str
          = fmt_time (build_stream_state cover tT tA name status title artist lp pp thumb caps).length) ∧
    (∀ x : ℚ, fmt_time x = fmt_time ((⌊x⌋ : ℤ) : ℚ)) ∧
    fmt_time (-1) = str "0:00" ∧ fmt_time (659/10) = str "1:05" := by
  refine ⟨fun cover name => ⟨rfl, rfl⟩, ?_, ?_, ?_, ?_⟩
  · intro cover tT tA name status title artist lp pp thumb caps
    cases lp <;> cases pp <;> exact ⟨rfl, rfl⟩
  · intro x
    simp only [fmt_time, floor_max_self x]
  · have h1 : ⌊max (-1 : ℚ) 0⌋ = 0 := by
      rw [max_eq_right (by norm_num)]
      exact Int.floor_zero
    simp only [fmt_time, h1]
    decide
  · have h1 : ⌊max (659/10 : ℚ) 0⌋ = 65 := by
      rw [max_eq_left (by norm_num), Int.floor_eq_iff] <;> norm_num
    simp only [fmt_time, h1]
    decide

/-- C4 counterexample: at offset 3.6 the daemon's seek handler produces
the argument "3+" (truncation toward zero), not the "4+" prescribed by the
claimed rounding of the absolute value. -/
theorem seek_arg_not_rounded :
    seek_arg (18/5) = str "3+" ∧ seek_arg_claimed (18/5) = str "4+" ∧
    seek_arg (18/5) ≠ seek_arg_claimed (18/5) := by
  have h1 : trunc_q (18/5 : ℚ) = 3 := by
    rw [trunc_q, if_pos (by norm_num), Int.floor_eq_iff] <;> norm_num
  have h2 : rat_round |(18/5 : ℚ)| = 4 := by
    rw [abs_of_nonneg (by norm_num), rat_round, if_pos (by norm_num),
      Int.floor_eq_iff] <;> norm_num
  have e1 : seek_arg (18/5) = str "3+" := by
    rw [seek_arg, if_pos (by norm_num), h1]; decide
  have e2 : seek_arg_claimed (18/5) = str "4+" := by
    rw [seek_arg_claimed, h2, if_pos (by norm_num)]; decide
  exact ⟨e1, e2, by rw [e1, e2]; decide⟩

/-- C4 (amended): the daemon's seek argument is the absolute value of the
offset truncated toward zero — not rounded — followed by '+' for
non-negative offsets and '-' for negative ones; offset -3.4 still yields
"3-". -/
theorem seek_arg_truncates (offset : ℚ) :
    seek_arg offset
      = nat_to_str (⌊|offset|⌋).toNat ++ [if 0 ≤ offset then '+' else '-'] ∧
    seek_arg (-17/5) = str "3-" := by
  constructor
  · rcases le_or_lt 0 offset with h | h
    · rw [seek_arg, if_pos h, if_pos h, trunc_q, if_pos h, abs_of_nonneg h,
        int_to_str, if_neg (not_lt.mpr (Int.floor_nonneg.mpr h))]
    · rw [seek_arg, if_neg (not_le.mpr h), if_neg (not_le.mpr h), trunc_q,
        if_pos (by linarith), abs_of_neg h,
        int_to_str, if_neg (not_lt.mpr (Int.floor_nonneg.mpr (by linarith)))]
  · have h1 : trunc_q (-(-17/5 : ℚ)) = 3 := by
      rw [trunc_q, if_pos (by norm_num), Int.floor_eq_iff] <;> norm_num
    rw [seek_arg, if_neg (by norm_num), h1]
    decide

/-- C8: a single application of `pango_escape` equals the stated
character-for-character mapping (the ampersand substitution running first
makes the sequential replacements non-interfering), and a second
application re-encodes the ampersands the first one introduced, shown on
the ampersand-free string "<". -/
theorem pango_escape_charwise :
    (∀ s : Str, pango_escape s = esc_all s) ∧
    pango_escape (pango_escape (str "<")) = str "&amp;lt;" ∧
    pango_escape (pango_escape (str "<")) ≠ pango_escape (str "<") := by
  have main : ∀ s : Str, pango_escape s = esc_all s := by
    intro s
    induction s with
    | nil => rfl
    | cons x xs ih =>
      have hx : x :: xs = [x] ++ xs := rfl
      rw [hx, pango_escape_append, pango_escape_single, ih]
      simp [esc_all]
  exact ⟨main, by decide, by decide⟩

/-- C2 counterexample: when the rename step fails, `write_state` returns
early and never touches the event log — the serialised record is not
appended, so the snapshot steps and the event append are not independent. -/
theorem write_state_not_independent :
    ((write_state (str "j") (str "l") ⟨false, true, false⟩
        ⟨none, none, []⟩).1.events = []) ∧
    ¬((write_state (str "j") (str "l") ⟨false, true, false⟩
        ⟨none, none, []⟩).1.events = [str "l"]) := by
  decide

/-- C2 (amended): `write_state` performs the temp-file write, the rename,
and the event-log append sequentially with early exit on error: the event
line is appended exactly when all three operations succeed, while the
snapshot is replaced exactly when the write and rename succeed — so an
event-append failure does not undo the snapshot, but a snapshot failure
does prevent the append. -/
theorem write_state_sequencing (json line : Str) (env : FsEnv) (fs : PubFs) :
    (write_state json line env fs).1.events
      = (if env.writeFails = false ∧ env.renameFails = false ∧ env.appendFails = false
         then fs.events ++ [line] else fs.events) ∧
    (write_state json line env fs).1.snapshot
      = (if env.writeFails = false ∧ env.renameFails = false
         then some json else fs.snapshot) ∧
    (write_state json line env fs).2
      = (!env.writeFails && !env.renameFails && !env.appendFails) := by
  rcases env with ⟨w, r, a⟩
  cases w <;> cases r <;> cases a <;> simp [write_state]

lemma priority_find_mem (prio ps : List Str) (p : Str)
    (h : priority_find prio ps = some p) : p ∈ ps := by
  induction prio with
  | nil => exact absurd h (by simp [priority_find])
  | cons w rest ih =>
    rw [priority_find] at h
    cases hf : ps.find? (fun pp => w.isPrefixOf pp) with
    | some q =>
      rw [hf] at h
      cases h
      exact List.mem_of_find?_eq_some hf
    | none =>
      rw [hf] at h
      exact ih h

lemma focus_find_mem (focus : Option Str) (ps : List Str) (p : Str)
    (h : focus_find focus ps = some p) : p ∈ ps := by
  cases focus with
  | none => exact absurd h (by simp [focus_find])
  | some f => exact List.mem_of_find?_eq_some h

lemma head?_mem (ps : List Str) (p : Str) (h : ps.head? = some p) : p ∈ ps := by
  cases ps with
  | nil => exact absurd h (by simp)
  | cons a as =>
    rw [List.head?_cons, Option.some.injEq] at h
    rw [← h]
    exact List.mem_cons_self a as

lemma recompute_selected_passes (cfg : Selection) (playersSet : List Str)
    (status : Str → Option Str) (focus_hint last_selected : Option Str)
    (p : Str)
    (h : recompute_selected cfg playersSet status focus_hint last_selected = some p) :
    include_exclude_match p cfg.incl cfg.excl = true := by
  have hmem : p ∈ playersSet.filter
      (fun q => include_exclude_match q cfg.incl cfg.excl) := by
    simp only [recompute_selected] at h
    split at h
    · exact absurd h (by simp)
    · split at h
      · split at h
        · rename_i q hq
          cases h
          exact List.mem_of_mem_filter (focus_find_mem _ _ _ hq)
        · split at h
          · rename_i q hq
            cases h
            exact List.mem_of_mem_filter (priority_find_mem _ _ _ hq)
          · exact List.mem_of_mem_filter (head?_mem _ _ h)
      · split at h
        · rename_i l hl
          cases h
          split at hl
          · split at hl
            · rename_i l2 hlast
              split at hl
              · rename_i hany
                cases hl
                rcases List.any_eq_true.mp hany with ⟨q, hq, hbeq⟩
                have hqp : q = p := beq_iff_eq.mp hbeq
                rwa [hqp] at hq
              · exact absurd hl (by simp)
            · exact absurd hl (by simp)
          · exact absurd hl (by simp)
        · split at h
          · rename_i q hq
            cases h
            exact focus_find_mem _ _ _ hq
          · split at h
            · rename_i q hq
              cases h
              exact priority_find_mem _ _ _ hq
            · split at h
              · exact head?_mem _ _ h
              · exact absurd h (by simp)
  exact (List.mem_filter.mp hmem).2

lemma set_selected_sync_selected (r : Registry) (v : Option Str) :
    (set_selected_sync r v).selected = v := by
  cases v <;> rfl

/-- C6: over every configuration and every sequence of registry mutations
and recomputations, a player id that fails the include/exclude filter is
never the value of `selected`. -/
theorem selected_respects_filter (cfg : Selection) (steps : List RegStep)
    (p : Str) (h : (run_steps cfg steps).selected = some p) :
    include_exclude_match p cfg.incl cfg.excl = true := by
  have H : ∀ (l : List RegStep) (r : Registry),
      (∀ q, r.selected = some q → include_exclude_match q cfg.incl cfg.excl = true) →
      ∀ q, (l.foldl (reg_step cfg) r).selected = some q →
        include_exclude_match q cfg.incl cfg.excl = true := by
    intro l
    induction l with
    | nil => intro r hr q hq; exact hr q hq
    | cons s rest ih =>
      intro r hr q hq
      refine ih (reg_step cfg r s) ?_ q hq
      intro q' hq'
      cases s with
      | setPlayers ps => exact hr q' hq'
      | setStatusMap f => exact hr q' hq'
      | insertStatus a b => exact hr q' hq'
      | setFocus fh => exact hr q' hq'
      | recompute =>
        rw [reg_step, set_selected_sync_selected] at hq'
        exact recompute_selected_passes _ _ _ _ _ _ hq'
  refine H steps Registry.init (fun q hq => ?_) p h
  simp [Registry.init] at hq

/-- C6 witness: the invariant theorem applied to a concrete run in which a
spotify instance is seeded, marked playing, and elected under a
configuration that excludes vlc. -/
theorem selected_respects_filter_witness :
    (run_steps ⟨[str "firefox", str "spotify"], true, str "any", [], [str "vlc"]⟩
        [RegStep.setPlayers [str "spotify.instance_1"],
         RegStep.insertStatus (str "spotify.instance_1") (str "Playing"),
         RegStep.recompute]).selected = some (str "spotify.instance_1") ∧
    include_exclude_match (str "spotify.instance_1") [] [str "vlc"] = true :=
  ⟨by decide,
    selected_respects_filter
      ⟨[str "firefox", str "spotify"], true, str "any", [], [str "vlc"]⟩
      [RegStep.setPlayers [str "spotify.instance_1"],
       RegStep.insertStatus (str "spotify.instance_1") (str "Playing"),
       RegStep.recompute]
      (str "spotify.instance_1") (by decide)⟩

/-- C7: for every IPC command the target player is the request's explicit
`player` field when present and otherwise the current selection; when both
are absent the handler performs no utility invocation, reports failure,
and the failure response line is exactly the thirteen characters of
`{"ok":false}` followed by a newline. -/
theorem ipc_target_resolution (sel : Option Str) (cmd : IpcCmd) :
    handle_cmd sel cmd
      = (match pick_player (cmd_player cmd) sel with
         | some p => ([⟨p, cmd_args cmd⟩], true)
         | none => ([], false)) ∧
    (cmd_player cmd = none → sel = none →
      handle_cmd sel cmd = ([], false) ∧
      response false = str "\x7b\"ok\":false\x7d\n") := by
  constructor
  · cases cmd <;> rfl
  · intro h1 h2
    refine ⟨?_, rfl⟩
    cases cmd <;> dsimp only [cmd_player] at h1 <;> subst h1 <;> subst h2 <;> rfl

/-- C7 witness: the theorem applied to a `play-pause` command with no
explicit player and no current selection. -/
theorem ipc_target_resolution_witness :
    cmd_player (IpcCmd.playPause none) = none ∧ (none : Option Str) = none ∧
    handle_cmd none (IpcCmd.playPause none) = ([], false) :=
  ⟨rfl, rfl, ((ipc_target_resolution none (IpcCmd.playPause none)).2 rfl rfl).1⟩

lemma trim_eq_nil_of_ws (l : Str) (h : ∀ c ∈ l, rust_is_ws c = true) :
    trim l = [] := by
  have h1 : l.dropWhile rust_is_ws = [] := List.dropWhile_eq_nil_iff.mpr h
  simp [trim, h1]

/-- C10: an IPC input line consisting only of whitespace (or empty) is
skipped entirely: no response line is written, no utility invocation
happens, and the rest of the connection's lines are processed as if the
blank line had not been received. -/
theorem blank_line_skipped (parse : Str → Option IpcCmd) (sel : Option Str)
    (l : Str) (rest : List Str) (h : ∀ c ∈ l, rust_is_ws c = true) :
    handle_line parse sel l = ([], []) ∧
    handle_stream parse sel (l :: rest) = handle_stream parse sel rest := by
  have ht : trim l = [] := trim_eq_nil_of_ws l h
  have h1 : handle_line parse sel l = ([], []) := by
    simp [handle_line, ht]
  exact ⟨h1, by simp [handle_stream, h1]⟩

lemma recompute_eq_spec (cfg : Selection) (playersSet : List Str)
    (status : Str → Option Str) (focus_hint last_selected : Option Str) :
    recompute_selected cfg playersSet status focus_hint last_selected
      = election_spec_alg cfg playersSet status focus_hint last_selected := by
  simp only [recompute_selected, election_spec_alg]
  set P := playersSet.filter (fun p => include_exclude_match p cfg.incl cfg.excl)
    with hPdef
  set PL := P.filter (is_playing status) with hPLdef
  by_cases hP : P = []
  · simp [hP]
  · rw [if_neg (by simp [List.isEmpty_iff, hP]), if_neg hP]
    by_cases hPL : PL = []
    · rw [if_neg (by simp [List.isEmpty_iff, hPL]), if_neg (not_not_intro hPL)]
      cases hls : last_selected with
      | none =>
        simp only [Option.orElse, ite_self]
        cases hff : focus_find focus_hint P <;>
          cases hpr : priority_find cfg.priority P <;>
            simp [Option.orElse, beq_iff_eq]
      | some l =>
        cases hrl : cfg.remember_last with
        | false =>
          simp only [Option.orElse, Bool.false_eq_true, if_false, false_and]
          cases hff : focus_find focus_hint P <;>
            cases hpr : priority_find cfg.priority P <;>
              simp [Option.orElse, beq_iff_eq]
        | true =>
          by_cases hm : l ∈ P
          · have hany : (P.any fun p => p == l) = true :=
              List.any_eq_true.mpr ⟨l, hm, beq_self_eq_true l⟩
            simp [hany, hm, Option.orElse]
          · have hany : (P.any fun p => p == l) = false := by
              rw [List.any_eq_false]
              intro x hx hbeq
              exact hm (beq_iff_eq.mp hbeq ▸ hx)
            simp only [Option.orElse, hany, Bool.false_eq_true, if_false,
              if_true, hm, and_false, true_and]
            cases hff : focus_find focus_hint P <;>
              cases hpr : priority_find cfg.priority P <;>
                simp [Option.orElse, beq_iff_eq]
    · rw [if_pos (by simp [List.isEmpty_iff, hPL]), if_pos hPL]
      cases hff : focus_find focus_hint PL <;>
        cases hpr : priority_find cfg.priority PL <;>
          simp [Option.orElse]

/-- C1: the election function returns exactly the player prescribed by the
spec's seven-step algorithm: filter by include/exclude to `P`; none when
`P` is empty; when the playing subset `PL` is non-empty, the focus-hint
match in `PL`, else the first priority match in `PL`, else the first
element of `PL`; when `PL` is empty, `last_selected` when remembered and
surviving, else the focus-hint match in `P`, else the first priority match
in `P`, else an element of `P` exactly when fallback is "any". -/
theorem election_matches_spec (cfg : Selection) (playersSet : List Str)
    (status : Str → Option Str) (focus_hint last_selected : Option Str) :
    recompute_selected cfg playersSet status focus_hint last_selected
      = election_spec_alg cfg playersSet status focus_hint last_selected :=
  recompute_eq_spec cfg playersSet status focus_hint last_selected

/-- C9: with any configured fallback string other than exactly "any"
(capitalised variants and typos included), the election behaves exactly as
with fallback "none". -/
theorem fallback_non_any (cfg : Selection) (playersSet : List Str)
    (status : Str → Option Str) (focus_hint last_selected : Option Str)
    (h : cfg.fallback ≠ str "any") :
    recompute_selected cfg playersSet status focus_hint last_selected
      = recompute_selected { cfg with fallback := str "none" }
          playersSet status focus_hint last_selected := by
  rcases cfg with ⟨prio, rl, fb, inc, exc⟩
  dsimp only at h
  have hb : (fb == str "any") = false := beq_eq_false_iff_ne.mpr h
  have hb2 : ((str "none" : Str) == str "any") = false := by decide
  simp only [recompute_selected, hb, hb2]

/-- C9 witness: the theorem applied to fallback "Any" with a lone player
that is neither playing, remembered, focus-matched nor priority-matched. -/
theorem fallback_non_any_witness :
    ((⟨[], false, str "Any", [], []⟩ : Selection).fallback ≠ str "any") ∧
    recompute_selected ⟨[], false, str "Any", [], []⟩ [str "x"]
        (fun _ => none) none none
      = recompute_selected ⟨[], false, str "none", [], []⟩ [str "x"]
          (fun _ => none) none none :=
  ⟨by decide,
    fallback_non_any ⟨[], false, str "Any", [], []⟩ [str "x"]
      (fun _ => none) none none (by decide)⟩

/-- C10 witness: the theorem applied to the line " \t" on a connection
with no selection. -/
theorem blank_line_skipped_witness :
    (∀ c ∈ [' ', '\t'], rust_is_ws c = true) ∧
    handle_line (fun _ => none) none [' ', '\t'] = ([], []) :=
  ⟨by decide,
    (blank_line_skipped (fun _ => none) none [' ', '\t'] [] (by decide)).1⟩
